import Mathlib

/-!
# Verification of the tick-to-contract aggregation engine

Shallow embedding of `prepare_to_import_ninja.py`: the Level-1 tick line
parser, the quarterly rollover calendar, symbol/date inference from paths,
the per-contract BBO (best bid/offer) state machine with its clamp step,
the per-file export routine and the multi-file driver.

Strings are modelled as Lean `String`s with ASCII semantics: Python's
`str.strip`, `str.isdigit`, `int(...)` and `Decimal(...)` are embedded for
ASCII inputs (the Unicode-digit classes those Python functions additionally
accept, and `Decimal`'s `NaN`/`Infinity` literals, are outside the model).
`csv.reader(delimiter=';', QUOTE_MINIMAL)` is embedded as splitting each
line on `;`, which coincides with it on quote-free lines; empty lines yield
an empty row and are skipped, as in `iter_csv_lineas`.
-/

/-- The whitespace characters stripped by Python's `str.strip()` (ASCII part). -/
def isPySpace (c : Char) : Bool :=
  c = ' ' || c = '\t' || c = '\n' || c = '\r' || c = '\x0b' || c = '\x0c'

/-- Python `s.strip()`: remove leading and trailing whitespace. -/
def pyStrip (s : String) : String :=
  String.mk (((s.toList.dropWhile isPySpace).reverse.dropWhile isPySpace).reverse)

/-- Value of a list of ASCII digit characters read in base 10. -/
def digitsToNat (ds : List Char) : Nat :=
  ds.foldl (fun a c => a * 10 + (c.toNat - 48)) 0

/-- After an initial digit, a Python integer-literal digit group continues
with `(underscore? digit)*`: underscores are allowed only between digits. -/
def intGroupOk : List Char → Bool
  | [] => true
  | '_' :: c :: cs => c.isDigit && intGroupOk cs
  | c :: cs => c.isDigit && intGroupOk cs

/-- Helper for `pyInt`: the whole input must be one nonempty digit group
`digit (underscore? digit)*`; its value ignores the grouping underscores. -/
def pyIntDigits (cs : List Char) : Option Nat :=
  match cs with
  | c :: rest =>
    if c.isDigit && intGroupOk rest then
      some (digitsToNat (cs.filter (fun x => x ≠ '_')))
    else none
  | [] => none

/-- Python `int(s)` on an ASCII string: surrounding whitespace, an optional
sign, then digits with optional grouping underscores. `none` models the
raised `ValueError`. -/
def pyInt (s : String) : Option Int :=
  match (pyStrip s).toList with
  | '+' :: r => (pyIntDigits r).map (fun n => (n : Int))
  | '-' :: r => (pyIntDigits r).map (fun n => -(n : Int))
  | r => (pyIntDigits r).map (fun n => (n : Int))

/-- Exponent part of a decimal numeric string: optional sign then digits. -/
def parseExp (cs : List Char) : Option Int :=
  match cs with
  | '+' :: r => if r ≠ [] ∧ r.all Char.isDigit then some (digitsToNat r) else none
  | '-' :: r => if r ≠ [] ∧ r.all Char.isDigit then some (-(digitsToNat r : Int)) else none
  | r => if r ≠ [] ∧ r.all Char.isDigit then some (digitsToNat r) else none

/-- The exact rational `sgn * m * 10 ^ e`. -/
def decOfParts (sgn : Int) (m : Nat) (e : Int) : ℚ :=
  if 0 ≤ e then Rat.divInt (sgn * m * 10 ^ e.toNat) 1
  else Rat.divInt (sgn * m) (10 ^ (-e).toNat)

/-- Core of `Decimal(s)` after stripping and underscore removal: the grammar
`[sign] (digits [. digits] | . digits) [ (e|E) [sign] digits ]`, valued
exactly. -/
def pyDecimalCore (cs : List Char) : Option ℚ :=
  let sp : Int × List Char :=
    match cs with
    | '+' :: r => (1, r)
    | '-' :: r => (-1, r)
    | r => (1, r)
  let ip := sp.2.takeWhile Char.isDigit
  let rest1 := sp.2.dropWhile Char.isDigit
  let fr : List Char × List Char :=
    match rest1 with
    | '.' :: r => (r.takeWhile Char.isDigit, r.dropWhile Char.isDigit)
    | r => ([], r)
  if ip = [] ∧ fr.1 = [] then none
  else
    let m := digitsToNat (ip ++ fr.1)
    match fr.2 with
    | [] => some (decOfParts sp.1 m (-(fr.1.length : Int)))
    | 'e' :: r => (parseExp r).map (fun e => decOfParts sp.1 m (e - fr.1.length))
    | 'E' :: r => (parseExp r).map (fun e => decOfParts sp.1 m (e - fr.1.length))
    | _ => none

/-- Python `Decimal(s)` on an ASCII finite-decimal string: leading/trailing
whitespace and all underscores are removed, then the decimal numeric-string
grammar applies; the value is the exact rational. `none` models the raised
`InvalidOperation`/`ValueError`. -/
def pyDecimal (s : String) : Option ℚ :=
  pyDecimalCore ((pyStrip s).toList.filter (fun c => c ≠ '_'))

/-! ## Tick line parser (`parse_line_fields`, `ts20_to_nt_parts`) -/

/-- `TYPE_BID` from the source. -/
def TYPE_BID : Int := 0
/-- `TYPE_ASK` from the source. -/
def TYPE_ASK : Int := 1
/-- `TYPE_LAST` from the source. -/
def TYPE_LAST : Int := 2

/-- `parse_line_fields(campos)`: reads `(timestamp20, level, type, price_str,
volume_str)` from a tokenized row, `none` when the row does not have the
expected structure. -/
def parse_line_fields (campos : List String) :
    Option (String × Int × Int × String × String) :=
  if campos.length = 5 ∨ campos.length = 7 then
    match campos with
    | c0 :: c1 :: c2 :: c3 :: c4 :: _ =>
      let timestamp_raw := pyStrip c0
      if timestamp_raw.length = 20 ∧ timestamp_raw.toList.all Char.isDigit then
        match pyInt c1, pyInt c2 with
        | some level, some tipo =>
          some (timestamp_raw, level, tipo, pyStrip c3, pyStrip c4)
        | _, _ => none
      else none
    | _ => none
  else none

/-- `ts20_to_nt_parts(ts20)`: split a 20-digit timestamp into date, time and
a 7-digit fraction (6 microsecond digits plus a trailing `'0'`). -/
def ts20_to_nt_parts (ts20 : String) : String × String × String :=
  let cs := ts20.toList
  (String.mk (cs.take 8), String.mk ((cs.drop 8).take 6),
   String.mk ((cs.drop 14).take 6) ++ "0")

/-! ## Rollover calendar (`second_friday`, `front_contract_for_date`) -/

/-- A proleptic-Gregorian calendar date, as Python's `datetime.date`. -/
structure PyDate where
  year : Nat
  month : Nat
  day : Nat
deriving DecidableEq, Repr

/-- Gregorian leap year, as `datetime`'s `_is_leap`. -/
def isLeap (y : Nat) : Bool :=
  (y % 4 = 0 && y % 100 != 0) || y % 400 = 0

/-- Days in the months of a non-leap year (`datetime`'s `_DAYS_IN_MONTH`). -/
def daysInMonthTable : Nat → Nat
  | 1 => 31 | 2 => 28 | 3 => 31 | 4 => 30 | 5 => 31 | 6 => 30
  | 7 => 31 | 8 => 31 | 9 => 30 | 10 => 31 | 11 => 30 | 12 => 31
  | _ => 0

/-- Number of days in month `m` of year `y`. -/
def daysInMonth (y m : Nat) : Nat :=
  if m = 2 ∧ isLeap y then 29 else daysInMonthTable m

/-- Days before the first of month `m` in a non-leap year
(`datetime`'s `_DAYS_BEFORE_MONTH`). -/
def daysBeforeMonthTable : Nat → Nat
  | 1 => 0 | 2 => 31 | 3 => 59 | 4 => 90 | 5 => 120 | 6 => 151
  | 7 => 181 | 8 => 212 | 9 => 243 | 10 => 273 | 11 => 304 | 12 => 334
  | _ => 0

/-- Days in year `y` before the first of month `m` (`_days_before_month`). -/
def daysBeforeMonth (y m : Nat) : Nat :=
  daysBeforeMonthTable m + (if 2 < m ∧ isLeap y then 1 else 0)

/-- Days before January 1 of year `y` (`_days_before_year`). -/
def daysBeforeYear (y : Nat) : Nat :=
  let n := y - 1
  n * 365 + n / 4 - n / 100 + n / 400

/-- `date.toordinal()`: day number with 0001-01-01 as day 1. -/
def toordinal (d : PyDate) : Nat :=
  daysBeforeYear d.year + daysBeforeMonth d.year d.month + d.day

/-- `date.weekday()`: Monday = 0, ..., Friday = 4, Sunday = 6. -/
def pyWeekday (ordinal : Nat) : Nat :=
  (ordinal + 6) % 7

/-- The range checks `datetime.date(y, m, d)` performs at construction. -/
def validDate (d : PyDate) : Bool :=
  1 ≤ d.year && d.year ≤ 9999 && 1 ≤ d.month && d.month ≤ 12 &&
    1 ≤ d.day && d.day ≤ daysInMonth d.year d.month

/-- `second_friday(year, month)` as an ordinal: the first Friday on or after
the 1st of the month, plus seven days.  Dates are compared through their
ordinals, which on valid dates agrees with Python's `date` comparison. -/
def second_friday (year month : Nat) : Nat :=
  let d0 := toordinal ⟨year, month, 1⟩
  let offset : Nat := (((4 : Int) - (pyWeekday d0 : Int)) % 7).toNat
  d0 + offset + 7

/-- `front_contract_for_date(d)`: the `(month, year)` of the front contract,
rolling on the second Friday of March, June, September and December. -/
def front_contract_for_date (d : PyDate) : Nat × Nat :=
  let o := toordinal d
  if o < second_friday d.year 3 then (3, d.year)
  else if o < second_friday d.year 6 then (6, d.year)
  else if o < second_friday d.year 9 then (9, d.year)
  else if o < second_friday d.year 12 then (12, d.year)
  else (3, d.year + 1)

/-! ## Inference from paths (`_RE_FOLDER`, `infer_symbol_from_path`,
`infer_trade_date_from_filename`) -/

/-- The character class `[A-Za-z0-9]`. -/
def isAlnumAscii (c : Char) : Bool :=
  c.isAlpha || c.isDigit

/-- The regex `^([A-Za-z0-9]+)_T[12]_\d{6}$` (`_RE_FOLDER`): on a match,
returns the captured symbol group. -/
def matchFolder (s : String) : Option String :=
  let cs := s.toList
  let sym := cs.takeWhile isAlnumAscii
  let rest := cs.dropWhile isAlnumAscii
  if sym ≠ [] then
    match rest with
    | '_' :: 'T' :: t :: '_' :: ds =>
      if (t = '1' ∨ t = '2') ∧ ds.length = 6 ∧ ds.all Char.isDigit then
        some (String.mk sym)
      else none
    | _ => none
  else none

/-- Python truthiness of the `Optional[str]` argument `forced_symbol`:
`None` and the empty string are falsy. -/
def pyTruthy : Option String → Bool
  | some s => !s.isEmpty
  | none => false

/-- `infer_symbol_from_path`, with the path represented by the names of the
immediate parent and grandparent directories.  `none` models the raised
`ValueError` (symbol-inference error). -/
def infer_symbol_from_path (parentName grandName : String)
    (forced_symbol : Option String) : Option String :=
  if pyTruthy forced_symbol then forced_symbol
  else
    match matchFolder parentName with
    | some sym => some sym
    | none => matchFolder grandName

/-- `infer_trade_date_from_filename`, on the file's base name: the regex
`^(\d{8})\.csv$` (`_RE_FILE_DATE`) followed by `date(...)` construction.
`none` models the raised `ValueError`. -/
def infer_trade_date_from_filename (name : String) : Option PyDate :=
  let cs := name.toList
  if cs.length = 12 ∧ (cs.take 8).all Char.isDigit ∧
      cs.drop 8 = ['.', 'c', 's', 'v'] then
    let d : PyDate :=
      ⟨digitsToNat (cs.take 4), digitsToNat ((cs.drop 4).take 2),
       digitsToNat ((cs.drop 6).take 2)⟩
    if validDate d then some d else none
  else none

/-! ## BBO state and clamp engine -/

/-- `clamp_bbo_with_last(last_str, bid_str, ask_str)`: returns
`(bid_out, ask_out, clamp_bid, clamp_ask)`.  If decimal parsing of any of
the three fails, the original values are returned without clamping. -/
def clamp_bbo_with_last (last_str bid_str ask_str : String) :
    String × String × Bool × Bool :=
  match pyDecimal last_str, pyDecimal bid_str, pyDecimal ask_str with
  | some d_last, some d_bid, some d_ask =>
    let bp : String × Bool :=
      if d_last < d_bid then (last_str, true) else (bid_str, false)
    let ap : String × Bool :=
      if d_ask < d_last then (last_str, true) else (ask_str, false)
    (bp.1, ap.1, bp.2, ap.2)
  | _, _, _ => (bid_str, ask_str, false, false)

/-- The per-contract mutable dictionary `{"last":..., "bid":..., "ask":...}`. -/
structure BboState where
  last : Option String
  bid : Option String
  ask : Option String
deriving DecidableEq, Repr

/-- The fresh state installed by `get_state` on first access. -/
def initBbo : BboState := ⟨none, none, none⟩

/-- The per-file counters of `export_csv_day_to_contract_last_allformat`:
`(total_lineas, lineas_validas, l1_total, l1_trades_emitidos,
clamps_aplicados)`. -/
structure Counters where
  total : Nat
  validas : Nat
  l1 : Nat
  emitted : Nat
  clamps : Nat
deriving DecidableEq, Repr

/-- All five counters at zero. -/
def initCounters : Counters := ⟨0, 0, 0, 0, 0⟩

/-- Pointwise sum of counters, as accumulated by `main`. -/
def addCounters (a b : Counters) : Counters :=
  ⟨a.total + b.total, a.validas + b.validas, a.l1 + b.l1,
   a.emitted + b.emitted, a.clamps + b.clamps⟩

/-- The fields interpolated into one emitted Tick-Replay line. -/
structure EmitRec where
  fecha : String
  hora : String
  frac7 : String
  price : String
  bid : String
  ask : String
  volume : String
deriving DecidableEq, Repr

/-- The f-string `f"{fecha} {hora} {frac7};{price};{bid};{ask};{volume}\n"`. -/
def emitLine (r : EmitRec) : String :=
  r.fecha ++ " " ++ r.hora ++ " " ++ r.frac7 ++ ";" ++ r.price ++ ";" ++
    r.bid ++ ";" ++ r.ask ++ ";" ++ r.volume ++ "\n"

/-- Concatenation of the emitted lines, in emission order. -/
def renderRecs (rs : List EmitRec) : String :=
  rs.foldl (fun acc r => acc ++ emitLine r) ""

/-- The body of the per-line loop of
`export_csv_day_to_contract_last_allformat`: one tokenized row updates the
contract's BBO state and counters and possibly emits one record. -/
def processRow (st : BboState) (cnt : Counters) (campos : List String) :
    BboState × Counters × Option EmitRec :=
  let cnt := { cnt with total := cnt.total + 1 }
  match parse_line_fields campos with
  | none => (st, cnt, none)
  | some (ts20, level, tipo, price_str, volume_str) =>
    let cnt := { cnt with validas := cnt.validas + 1 }
    if level ≠ 1 then (st, cnt, none)
    else
      let cnt := { cnt with l1 := cnt.l1 + 1 }
      let parts := ts20_to_nt_parts ts20
      if tipo = TYPE_BID then ({ st with bid := some price_str }, cnt, none)
      else if tipo = TYPE_ASK then ({ st with ask := some price_str }, cnt, none)
      else if tipo = TYPE_LAST then
        let st := { st with last := some price_str }
        match st.bid, st.ask with
        | some b, some a =>
          let c := clamp_bbo_with_last price_str b a
          let cnt := if c.2.2.1 || c.2.2.2 then
            { cnt with clamps := cnt.clamps + 1 } else cnt
          let cnt := { cnt with emitted := cnt.emitted + 1 }
          (st, cnt,
           some ⟨parts.1, parts.2.1, parts.2.2, price_str, c.1, c.2.1, volume_str⟩)
        | _, _ => (st, cnt, none)
      else (st, cnt, none)

/-- The per-line loop over a whole row sequence, collecting the emitted
records in order. -/
def processRows (st : BboState) (cnt : Counters) :
    List (List String) → BboState × Counters × List EmitRec
  | [] => (st, cnt, [])
  | row :: rows =>
    let s1 := processRow st cnt row
    let s2 := processRows s1.1 s1.2.1 rows
    (s2.1, s2.2.1,
     match s1.2.2 with
     | some r => r :: s2.2.2
     | none => s2.2.2)

/-! ## Contract keys, writers state, per-file export, driver -/

/-- `ContractKey`: frozen dataclass with value equality. -/
structure ContractKey where
  symbol : String
  month : Nat
  year : Nat
deriving DecidableEq, Repr

/-- `f"{n:02d}"` for the small numbers used in labels. -/
def pad2 (n : Nat) : String :=
  if n < 10 then "0" ++ toString n else toString n

/-- `ContractKey.label`: `MM-YY`. -/
def ContractKey.label (ck : ContractKey) : String :=
  pad2 ck.month ++ "-" ++ pad2 (ck.year % 100)

/-- The base name of `ContractKey.outfile`: `"<SYMBOL> MM-YY.Last.txt"`. -/
def ContractKey.outfileName (ck : ContractKey) : String :=
  ck.symbol ++ " " ++ ck.label ++ ".Last.txt"

/-- The two dictionaries owned by `ContractWriters`: per-contract open
handles (with the text written to each during this run) and per-contract
BBO state, both in first-acquisition order. -/
structure WritersState where
  handles : List (ContractKey × String)
  state : List (ContractKey × BboState)
deriving DecidableEq, Repr

/-- A fresh `ContractWriters()`. -/
def initWriters : WritersState := ⟨[], []⟩

/-- Assoc lookup by contract key. -/
def assocFind {α : Type} (l : List (ContractKey × α)) (ck : ContractKey) :
    Option α :=
  match l with
  | [] => none
  | (k, v) :: rest => if k = ck then some v else assocFind rest ck

/-- `get_writer`: open (memoize) the contract's handle on first use. -/
def getWriter (ws : WritersState) (ck : ContractKey) : WritersState :=
  match assocFind ws.handles ck with
  | some _ => ws
  | none => { ws with handles := ws.handles ++ [(ck, "")] }

/-- `get_state`: memoize a fresh all-unset BBO state on first access. -/
def getState (ws : WritersState) (ck : ContractKey) :
    WritersState × BboState :=
  match assocFind ws.state ck with
  | some st => (ws, st)
  | none => ({ ws with state := ws.state ++ [(ck, initBbo)] }, initBbo)

/-- Store the contract's updated BBO state. -/
def setState (ws : WritersState) (ck : ContractKey) (st : BboState) :
    WritersState :=
  { ws with state := ws.state.map (fun p => if p.1 = ck then (p.1, st) else p) }

/-- Append text to the contract's open handle. -/
def appendOut (ws : WritersState) (ck : ContractKey) (txt : String) :
    WritersState :=
  { ws with handles :=
      ws.handles.map (fun p => if p.1 = ck then (p.1, p.2 ++ txt) else p) }

/-- `close()` of `ContractWriters`: flush and close every handle ever opened
(returning the keys released, in order) and clear both dictionaries. -/
def closeWriters (ws : WritersState) : WritersState × List ContractKey :=
  (⟨[], []⟩, ws.handles.map (fun p => p.1))

/-- One day-file presented to the engine: the names of its two enclosing
directories, its base name, and its text lines. -/
structure FileInput where
  parentName : String
  grandName : String
  fileName : String
  lines : List String
deriving DecidableEq, Repr

/-- Split a character list at every `;` (the field split `csv.reader` with
delimiter `;` performs on a quote-free line). -/
def splitSemis : List Char → List (List Char)
  | [] => [[]]
  | c :: rest =>
    let r := splitSemis rest
    if c = ';' then [] :: r
    else
      match r with
      | g :: gs => (c :: g) :: gs
      | [] => [[c]]

/-- `iter_csv_lineas` over `csv.reader(delimiter=';')` on quote-free lines:
empty lines give empty rows and are skipped, others split on `;`. -/
def rowsOfLines (lines : List String) : List (List String) :=
  lines.filterMap (fun l =>
    match l.toList with
    | [] => none
    | cs => some ((splitSemis cs).map (fun g => String.mk g)))

/-- `export_csv_day_to_contract_last_allformat` for one file: infer symbol
and date, pick the front contract, acquire writer and state, run every row
through the engine, append the emitted lines.  `Except.error` models the
exceptions that escape this function to the driver. -/
def export_file (forced_symbol : Option String) (fi : FileInput)
    (ws : WritersState) : Except String (WritersState × Counters) :=
  match infer_symbol_from_path fi.parentName fi.grandName forced_symbol with
  | none => .error "symbol"
  | some symbol =>
    match infer_trade_date_from_filename fi.fileName with
    | none => .error "filename"
    | some trading_day =>
      let mc := front_contract_for_date trading_day
      let ck : ContractKey := ⟨symbol, mc.1, mc.2⟩
      let ws := getWriter ws ck
      let p := getState ws ck
      let res := processRows p.2 initCounters (rowsOfLines fi.lines)
      let ws := setState p.1 ck res.1
      let ws := appendOut ws ck (renderRecs res.2.2)
      .ok (ws, res.2.1)

/-- The driver's accumulator: writers state, warnings printed so far
(failed files), accumulated counters. -/
structure DriverAcc where
  ws : WritersState
  warnings : Nat
  totals : Counters
deriving DecidableEq, Repr

/-- One iteration of `main`'s loop: try the file, on failure record a
warning and continue with the next file. -/
def driverStep (forced_symbol : Option String) (acc : DriverAcc)
    (fi : FileInput) : DriverAcc :=
  match export_file forced_symbol fi acc.ws with
  | .ok r => ⟨r.1, acc.warnings, addCounters acc.totals r.2⟩
  | .error _ => ⟨acc.ws, acc.warnings + 1, acc.totals⟩

/-- `main`'s processing of the discovered file list inside
`with ContractWriters() as writers`, before the close. -/
def runBody (forced_symbol : Option String) (files : List FileInput) :
    DriverAcc :=
  files.foldl (driverStep forced_symbol) ⟨initWriters, 0, initCounters⟩

/-- The whole run: process every file, then `releaseAll` (the `with`-exit
`close()`): final writers state and the keys flushed and closed. -/
def runDriver (forced_symbol : Option String) (files : List FileInput) :
    DriverAcc × WritersState × List ContractKey :=
  let acc := runBody forced_symbol files
  let c := closeWriters acc.ws
  (acc, c.1, c.2)
/-! ## Claim C5: parser validation rules -/

/-- The shape a tokenized row must have for the parser to accept it,
stated over the row's fields directly. -/
def validShape (campos : List String) : Prop :=
  (campos.length = 5 ∨ campos.length = 7) ∧
    (pyStrip (campos.getD 0 "")).length = 20 ∧
    (pyStrip (campos.getD 0 "")).toList.all Char.isDigit = true ∧
    (pyInt (campos.getD 1 "")).isSome = true ∧
    (pyInt (campos.getD 2 "")).isSome = true

/-- C5.  `parse_line_fields` returns a decoded record iff the field count is
exactly 5 or 7, the trimmed first field is exactly 20 ASCII digits, and the
level and event-type fields parse as Python integers; otherwise it returns
`none`, and on success the price and volume fields are the trimmed input
strings, not numerically parsed. -/
theorem parse_line_fields_characterization (campos : List String) :
    ((parse_line_fields campos).isSome = true ↔ validShape campos) ∧
    (∀ ts lvl tp p v, parse_line_fields campos = some (ts, lvl, tp, p, v) →
      ts = pyStrip (campos.getD 0 "") ∧ pyInt (campos.getD 1 "") = some lvl ∧
        pyInt (campos.getD 2 "") = some tp ∧ p = pyStrip (campos.getD 3 "") ∧
        v = pyStrip (campos.getD 4 "")) := by
  obtain _ | ⟨c0, _ | ⟨c1, _ | ⟨c2, _ | ⟨c3, _ | ⟨c4, rest⟩⟩⟩⟩⟩ := campos
  · simp [parse_line_fields, validShape]
  · simp [parse_line_fields, validShape]
  · simp [parse_line_fields, validShape]
  · simp [parse_line_fields, validShape]
  · simp [parse_line_fields, validShape]
  · simp only [parse_line_fields, validShape, List.length_cons, List.getD_cons_zero,
      List.getD_cons_succ]
    by_cases hlen : rest.length + 1 + 1 + 1 + 1 + 1 = 5 ∨ rest.length + 1 + 1 + 1 + 1 + 1 = 7
    · rw [if_pos hlen]
      by_cases hts : (pyStrip c0).length = 20 ∧ (pyStrip c0).toList.all Char.isDigit = true
      · rcases h1 : pyInt c1 with _ | lvl <;> rcases h2 : pyInt c2 with _ | tp <;>
          simp_all
      · rcases h1 : pyInt c1 with _ | lvl <;> rcases h2 : pyInt c2 with _ | tp <;>
          simp_all
    · rw [if_neg hlen]
      simp_all

/-- Witness for C5 at a concrete row. -/
theorem parse_line_fields_characterization_witness :
    (parse_line_fields ["20240101093000123456", "1", "2", "5000.50", "3"]).isSome = true ∧
      pyInt "1" = some 1 :=
  ⟨(parse_line_fields_characterization
      ["20240101093000123456", "1", "2", "5000.50", "3"]).1.mpr
      ⟨Or.inl (by decide), by decide, by decide, by decide, by decide⟩,
    ((parse_line_fields_characterization
      ["20240101093000123456", "1", "2", "5000.50", "3"]).2 "20240101093000123456"
      1 2 "5000.50" "3" (by decide)).2.1⟩
/-! ## Row-level lemmas -/

/-- A 7-field row parses exactly like the 5-field row of its first five
fields: the parser never reads the two trailing fields. -/
theorem parse_seven_eq_parse_five (c0 c1 c2 c3 c4 c5 c6 : String) :
    parse_line_fields [c0, c1, c2, c3, c4, c5, c6] =
      parse_line_fields [c0, c1, c2, c3, c4] := by
  simp [parse_line_fields]

/-- C10.  Rows are filtered by the level field alone: a 7-field row is
processed exactly like the 5-field row of its first five fields, and any
row whose level differs from 1 counts as valid but leaves the state
unchanged and emits nothing. -/
theorem level_filter_semantics :
    (∀ st cnt c0 c1 c2 c3 c4 c5 c6,
      processRow st cnt [c0, c1, c2, c3, c4, c5, c6] =
        processRow st cnt [c0, c1, c2, c3, c4]) ∧
    (∀ st cnt campos ts lvl tp p v,
      parse_line_fields campos = some (ts, lvl, tp, p, v) → lvl ≠ 1 →
      processRow st cnt campos =
        (st, { cnt with total := cnt.total + 1, validas := cnt.validas + 1 },
         none)) := by
  constructor
  · intro st cnt c0 c1 c2 c3 c4 c5 c6
    simp [processRow, parse_seven_eq_parse_five]
  · intro st cnt campos ts lvl tp p v hp hl
    simp [processRow, hp, hl]

/-- Witness for C10 at concrete rows. -/
theorem level_filter_semantics_witness :
    processRow initBbo initCounters
        ["20240101093000123456", "1", "0", "5000.00", "10", "x", "y"] =
      processRow initBbo initCounters
        ["20240101093000123456", "1", "0", "5000.00", "10"] ∧
    processRow initBbo initCounters
        ["20240101093000123456", "2", "0", "5000.00", "10"] =
      (initBbo, ⟨1, 1, 0, 0, 0⟩, none) :=
  ⟨level_filter_semantics.1 initBbo initCounters _ _ _ _ _ _ _,
   level_filter_semantics.2 initBbo initCounters _
     "20240101093000123456" 2 0 "5000.00" "10" (by decide) (by decide)⟩
/-! ## Claim C3: no trade emitted before a two-sided market -/

/-- A row that parses as a Level-1 bid event. -/
def IsBidRow (campos : List String) : Prop :=
  ∃ ts p v, parse_line_fields campos = some (ts, 1, TYPE_BID, p, v)

/-- A row that parses as a Level-1 ask event. -/
def IsAskRow (campos : List String) : Prop :=
  ∃ ts p v, parse_line_fields campos = some (ts, 1, TYPE_ASK, p, v)

/-- A trade processed while `last_bid` or `last_ask` is unset updates only
`last` (and the counters) and emits nothing. -/
theorem processRow_trade_one_sided (st : BboState) (cnt : Counters)
    (campos : List String) (ts p v : String)
    (hp : parse_line_fields campos = some (ts, 1, TYPE_LAST, p, v))
    (hside : st.bid = none ∨ st.ask = none) :
    processRow st cnt campos =
      ({ st with last := some p },
       { cnt with total := cnt.total + 1, validas := cnt.validas + 1,
                  l1 := cnt.l1 + 1 }, none) := by
  rcases hside with hb | ha
  · rcases hask : st.ask with _ | a <;>
      simp [processRow, hp, TYPE_BID, TYPE_ASK, TYPE_LAST, hb, hask]
  · rcases hbid : st.bid with _ | b <;>
      simp [processRow, hp, TYPE_BID, TYPE_ASK, TYPE_LAST, ha, hbid]

/-- A row that is not a bid keeps `bid` unset; with `bid` unset nothing is
emitted. -/
theorem processRow_no_bid (st : BboState) (cnt : Counters)
    (campos : List String) (hnb : ¬ IsBidRow campos) (hb : st.bid = none) :
    (processRow st cnt campos).1.bid = none ∧
      (processRow st cnt campos).2.2 = none := by
  rcases hp : parse_line_fields campos with _ | ⟨ts, lvl, tipo, p, v⟩
  · simp [processRow, hp, hb]
  · by_cases hl : lvl = 1
    · subst hl
      by_cases h0 : tipo = (0 : Int)
      · rw [h0] at hp
        exact absurd ⟨ts, p, v, hp⟩ hnb
      · by_cases h1 : tipo = (1 : Int)
        · simp [processRow, hp, TYPE_BID, TYPE_ASK, TYPE_LAST, h0, h1, hb]
        · by_cases h2 : tipo = (2 : Int)
          · rcases hask : st.ask with _ | a <;>
              simp [processRow, hp, TYPE_BID, TYPE_ASK, TYPE_LAST, h0, h1, h2,
                hb, hask]
          · simp [processRow, hp, TYPE_BID, TYPE_ASK, TYPE_LAST, h0, h1, h2, hb]
    · simp [processRow, hp, hl, hb]

/-- A row that is not an ask keeps `ask` unset; with `ask` unset nothing is
emitted. -/
theorem processRow_no_ask (st : BboState) (cnt : Counters)
    (campos : List String) (hna : ¬ IsAskRow campos) (ha : st.ask = none) :
    (processRow st cnt campos).1.ask = none ∧
      (processRow st cnt campos).2.2 = none := by
  rcases hp : parse_line_fields campos with _ | ⟨ts, lvl, tipo, p, v⟩
  · simp [processRow, hp, ha]
  · by_cases hl : lvl = 1
    · subst hl
      by_cases h1 : tipo = (1 : Int)
      · rw [h1] at hp
        exact absurd ⟨ts, p, v, hp⟩ hna
      · by_cases h0 : tipo = (0 : Int)
        · simp [processRow, hp, TYPE_BID, TYPE_ASK, TYPE_LAST, h0, h1, ha]
        · by_cases h2 : tipo = (2 : Int)
          · rcases hbid : st.bid with _ | b <;>
              simp [processRow, hp, TYPE_BID, TYPE_ASK, TYPE_LAST, h0, h1, h2,
                ha, hbid]
          · simp [processRow, hp, TYPE_BID, TYPE_ASK, TYPE_LAST, h0, h1, h2, ha]
    · simp [processRow, hp, hl, ha]

/-- Rows containing no bid event, run from a state with `bid` unset, emit
nothing. -/
theorem processRows_no_bid (rows : List (List String)) (st : BboState)
    (cnt : Counters) (hnb : ∀ r ∈ rows, ¬ IsBidRow r) (hb : st.bid = none) :
    (processRows st cnt rows).2.2 = [] := by
  induction rows generalizing st cnt with
  | nil => simp [processRows]
  | cons row rows ih =>
    have hstep := processRow_no_bid st cnt row (hnb row (by simp)) hb
    simp only [processRows, hstep.2]
    exact ih _ _ (fun r hr => hnb r (by simp [hr])) hstep.1

/-- Rows containing no ask event, run from a state with `ask` unset, emit
nothing. -/
theorem processRows_no_ask (rows : List (List String)) (st : BboState)
    (cnt : Counters) (hna : ∀ r ∈ rows, ¬ IsAskRow r) (ha : st.ask = none) :
    (processRows st cnt rows).2.2 = [] := by
  induction rows generalizing st cnt with
  | nil => simp [processRows]
  | cons row rows ih =>
    have hstep := processRow_no_ask st cnt row (hna row (by simp)) ha
    simp only [processRows, hstep.2]
    exact ih _ _ (fun r hr => hna r (by simp [hr])) hstep.1

/-- C3.  From a fresh state, a row sequence with no bid event (or no ask
event) emits nothing at all; and at any state still missing a bid or an
ask, a trade row only updates `last` and the counters, emitting nothing. -/
theorem no_trade_emitted_before_two_sided :
    (∀ rows : List (List String),
      ((∀ r ∈ rows, ¬ IsBidRow r) ∨ (∀ r ∈ rows, ¬ IsAskRow r)) →
      (processRows initBbo initCounters rows).2.2 = []) ∧
    (∀ st cnt campos ts p v,
      parse_line_fields campos = some (ts, 1, TYPE_LAST, p, v) →
      st.bid = none ∨ st.ask = none →
      processRow st cnt campos =
        ({ st with last := some p },
         { cnt with total := cnt.total + 1, validas := cnt.validas + 1,
                    l1 := cnt.l1 + 1 }, none)) := by
  refine ⟨fun rows h => ?_, fun st cnt campos ts p v hp hside =>
    processRow_trade_one_sided st cnt campos ts p v hp hside⟩
  rcases h with hnb | hna
  · exact processRows_no_bid rows initBbo initCounters hnb rfl
  · exact processRows_no_ask rows initBbo initCounters hna rfl

/-- Witness for C3: an ask then a trade (no bid ever) emits nothing. -/
theorem no_trade_emitted_before_two_sided_witness :
    (processRows initBbo initCounters
      [["20240101093000223456", "1", "1", "5000.25", "7"],
       ["20240101093000323456", "1", "2", "5000.50", "3"]]).2.2 = [] :=
  no_trade_emitted_before_two_sided.1 _
    (Or.inl (by
      intro r hr
      rintro ⟨ts, p, v, hp⟩
      rcases List.mem_cons.mp hr with rfl | hr
      · rw [show parse_line_fields ["20240101093000223456", "1", "1", "5000.25", "7"] =
            some ("20240101093000223456", 1, 1, "5000.25", "7") from by decide] at hp
        simp [TYPE_BID] at hp
      · rcases List.mem_cons.mp hr with rfl | hr
        · rw [show parse_line_fields ["20240101093000323456", "1", "2", "5000.50", "3"] =
              some ("20240101093000323456", 1, 2, "5000.50", "3") from by decide] at hp
          simp [TYPE_BID] at hp
        · cases hr))
/-! ## Claim C1: emitted records respect the clamped BBO ordering -/

/-- When the clamp's three inputs and its two outputs all parse as decimals,
the clamp step guarantees `bid_out ≤ last ≤ ask_out`. -/
theorem clamp_bbo_order (l b a : String) (ql qb qa : ℚ)
    (hl : pyDecimal l = some ql)
    (hb : pyDecimal (clamp_bbo_with_last l b a).1 = some qb)
    (ha : pyDecimal (clamp_bbo_with_last l b a).2.1 = some qa) :
    qb ≤ ql ∧ ql ≤ qa := by
  unfold clamp_bbo_with_last at hb ha
  rcases hpl : pyDecimal l with _ | dl
  · rw [hpl] at hl; cases hl
  · rw [hpl] at hl hb ha
    injection hl with hl; subst hl
    rcases hpb : pyDecimal b with _ | db
    · rw [hpb] at hb ha
      simp only [] at hb ha
      rw [hpb] at hb; cases hb
    · rcases hpa : pyDecimal a with _ | da
      · rw [hpb, hpa] at hb ha
        simp only [] at hb ha
        rw [hpa] at ha; cases ha
      · rw [hpb, hpa] at hb ha
        simp only [] at hb ha
        constructor
        · by_cases hcb : dl < db
          · rw [if_pos hcb] at hb
            simp only [] at hb
            rw [hpl] at hb
            injection hb with hb; subst hb
            exact le_refl _
          · rw [if_neg hcb] at hb
            simp only [] at hb
            rw [hpb] at hb
            injection hb with hb; subst hb
            exact le_of_not_lt hcb
        · by_cases hca : da < dl
          · rw [if_pos hca] at ha
            simp only [] at ha
            rw [hpl] at ha
            injection ha with ha; subst ha
            exact le_refl _
          · rw [if_neg hca] at ha
            simp only [] at ha
            rw [hpa] at ha
            injection ha with ha; subst ha
            exact le_of_not_lt hca

/-- Every emission of `processRow` carries the clamp's outputs for the trade
price against the stored bid and ask. -/
theorem processRow_emit_clamped (st : BboState) (cnt : Counters)
    (campos : List String) (st2 : BboState) (cnt2 : Counters) (rec : EmitRec)
    (h : processRow st cnt campos = (st2, cnt2, some rec)) :
    ∃ b a, st.bid = some b ∧ st.ask = some a ∧
      rec.bid = (clamp_bbo_with_last rec.price b a).1 ∧
      rec.ask = (clamp_bbo_with_last rec.price b a).2.1 := by
  rcases hp : parse_line_fields campos with _ | ⟨ts, lvl, tipo, p, v⟩
  · simp [processRow, hp] at h
  · by_cases hl : lvl = 1
    · subst hl
      by_cases h0 : tipo = (0 : Int)
      · simp [processRow, hp, TYPE_BID, TYPE_ASK, TYPE_LAST, h0] at h
      · by_cases h1 : tipo = (1 : Int)
        · simp [processRow, hp, TYPE_BID, TYPE_ASK, TYPE_LAST, h0, h1] at h
        · by_cases h2 : tipo = (2 : Int)
          · rcases hbid : st.bid with _ | b
            · simp [processRow, hp, TYPE_BID, TYPE_ASK, TYPE_LAST, h0, h1, h2,
                hbid] at h
            · rcases hask : st.ask with _ | a
              · simp [processRow, hp, TYPE_BID, TYPE_ASK, TYPE_LAST, h0, h1,
                  h2, hbid, hask] at h
              · refine ⟨b, a, rfl, rfl, ?_⟩
                simp [processRow, hp, TYPE_BID, TYPE_ASK, TYPE_LAST, h0, h1,
                  h2, hbid, hask] at h
                obtain ⟨hst, hcnt, hrec⟩ := h
                subst hrec
                exact ⟨rfl, rfl⟩
          · simp [processRow, hp, TYPE_BID, TYPE_ASK, TYPE_LAST, h0, h1, h2]
              at h
    · simp [processRow, hp, hl] at h

/-- Emissions of a row sequence, from any state, all come from the clamp. -/
theorem processRows_emit_clamped (rows : List (List String)) (st : BboState)
    (cnt : Counters) (rec : EmitRec)
    (hmem : rec ∈ (processRows st cnt rows).2.2) :
    ∃ b a, rec.bid = (clamp_bbo_with_last rec.price b a).1 ∧
      rec.ask = (clamp_bbo_with_last rec.price b a).2.1 := by
  induction rows generalizing st cnt with
  | nil => simp [processRows] at hmem
  | cons row rows ih =>
    simp only [processRows] at hmem
    rcases hrow : (processRow st cnt row).2.2 with _ | r
    · rw [hrow] at hmem
      exact ih _ _ hmem
    · rw [hrow] at hmem
      rcases List.mem_cons.mp hmem with rfl | hmem2
      · obtain ⟨b, a, _, _, hb, ha⟩ :=
          processRow_emit_clamped st cnt row (processRow st cnt row).1
            (processRow st cnt row).2.1 rec (by rw [← hrow])
        exact ⟨b, a, hb, ha⟩
      · exact ih _ _ hmem2

/-- C1.  Every record emitted by the engine satisfies
`bid_out ≤ price ≤ ask_out` whenever all three emitted fields are
interpretable as exact decimals. -/
theorem emitted_records_bbo_ordered (rows : List (List String))
    (rec : EmitRec) (hmem : rec ∈ (processRows initBbo initCounters rows).2.2)
    (qp qb qa : ℚ) (hp : pyDecimal rec.price = some qp)
    (hb : pyDecimal rec.bid = some qb) (ha : pyDecimal rec.ask = some qa) :
    qb ≤ qp ∧ qp ≤ qa := by
  obtain ⟨b, a, hbid, hask⟩ :=
    processRows_emit_clamped rows initBbo initCounters rec hmem
  rw [hbid] at hb
  rw [hask] at ha
  exact clamp_bbo_order rec.price b a qp qb qa hp hb ha
/-- Witness for C1: the concrete three-line scenario emits one record whose
decimal fields are ordered. -/
theorem emitted_records_bbo_ordered_witness :
    Rat.divInt 500000 100 ≤ Rat.divInt 500050 100 ∧
      Rat.divInt 500050 100 ≤ Rat.divInt 500050 100 :=
  emitted_records_bbo_ordered
    [["20240101093000123456", "1", "0", "5000.00", "10"],
     ["20240101093000223456", "1", "1", "5000.25", "7"],
     ["20240101093000323456", "1", "2", "5000.50", "3"]]
    ⟨"20240101", "093000", "3234560", "5000.50", "5000.00", "5000.50", "3"⟩
    (by decide) (Rat.divInt 500050 100) (Rat.divInt 500000 100)
    (Rat.divInt 500050 100) (by decide) (by decide) (by decide)

/-! ## Claim C8: determinism -/

/-- C8.  Two runs from fresh states over the same ordered row sequence
produce identical results, byte-identical rendered output included: the
engine's output is a function of the ordered input alone. -/
theorem engine_deterministic (rows : List (List String))
    (st1 st2 : BboState) (cnt1 cnt2 : Counters)
    (h1 : st1 = initBbo) (h2 : st2 = initBbo)
    (h3 : cnt1 = initCounters) (h4 : cnt2 = initCounters) :
    renderRecs (processRows st1 cnt1 rows).2.2 =
      renderRecs (processRows st2 cnt2 rows).2.2 ∧
    processRows st1 cnt1 rows = processRows st2 cnt2 rows := by
  subst h1; subst h2; subst h3; subst h4
  exact ⟨rfl, rfl⟩

/-- Witness for C8 at the concrete three-line scenario. -/
theorem engine_deterministic_witness :
    renderRecs (processRows initBbo initCounters
        [["20240101093000323456", "1", "2", "5000.50", "3"]]).2.2 =
      renderRecs (processRows initBbo initCounters
        [["20240101093000323456", "1", "2", "5000.50", "3"]]).2.2 :=
  (engine_deterministic [["20240101093000323456", "1", "2", "5000.50", "3"]]
    initBbo initBbo initCounters initCounters rfl rfl rfl rfl).1

/-! ## Claim C9: no price/volume constraint; unclamped pass-through -/

/-- When any of the three prices fails decimal parsing, the clamp returns
the original strings with both flags clear. -/
theorem clamp_bbo_parse_failure (l b a : String)
    (h : pyDecimal l = none ∨ pyDecimal b = none ∨ pyDecimal a = none) :
    clamp_bbo_with_last l b a = (b, a, false, false) := by
  unfold clamp_bbo_with_last
  rcases hl : pyDecimal l with _ | dl <;>
    rcases hb : pyDecimal b with _ | db <;>
    rcases ha : pyDecimal a with _ | da <;>
    simp_all

/-- C9.  The parser places no constraint on price and volume: any 5-field
row with a well-formed timestamp and integer level/type decodes.  A trade
whose price or stored bid/ask fails decimal parsing is still emitted with
the stored strings passed through unclamped, and such a record can violate
the bid ≤ price ordering. -/
theorem unparsable_prices_pass_through :
    (∀ c0 c1 c2 c3 c4 lvl tp,
      (pyStrip c0).length = 20 → (pyStrip c0).toList.all Char.isDigit = true →
      pyInt c1 = some lvl → pyInt c2 = some tp →
      parse_line_fields [c0, c1, c2, c3, c4] =
        some (pyStrip c0, lvl, tp, pyStrip c3, pyStrip c4)) ∧
    (∀ st cnt campos ts p v b a,
      parse_line_fields campos = some (ts, 1, TYPE_LAST, p, v) →
      st.bid = some b → st.ask = some a →
      (pyDecimal p = none ∨ pyDecimal b = none ∨ pyDecimal a = none) →
      processRow st cnt campos =
        ({ st with last := some p },
         { cnt with total := cnt.total + 1, validas := cnt.validas + 1,
                    l1 := cnt.l1 + 1, emitted := cnt.emitted + 1 },
         some ⟨(ts20_to_nt_parts ts).1, (ts20_to_nt_parts ts).2.1,
               (ts20_to_nt_parts ts).2.2, p, b, a, v⟩)) ∧
    (∃ rec, rec ∈ (processRows initBbo initCounters
        [["20240101093000123456", "1", "0", "5000", "1"],
         ["20240101093000223456", "1", "1", "xyz", "1"],
         ["20240101093000323456", "1", "2", "4000", "7"]]).2.2 ∧
      pyDecimal rec.bid = some (Rat.divInt 5000 1) ∧
      pyDecimal rec.price = some (Rat.divInt 4000 1) ∧
      ¬ Rat.divInt 5000 1 ≤ Rat.divInt 4000 1) := by
  refine ⟨?_, ?_, ?_⟩
  · intro c0 c1 c2 c3 c4 lvl tp hlen hdig h1 h2
    simp [parse_line_fields, hlen, hdig, h1, h2]
    simpa using hdig
  · intro st cnt campos ts p v b a hp hbid hask hfail
    simp [processRow, hp, TYPE_BID, TYPE_ASK, TYPE_LAST, hbid, hask,
      clamp_bbo_parse_failure p b a hfail]
  · exact ⟨⟨"20240101", "093000", "3234560", "4000", "5000", "xyz", "7"⟩,
      by decide, by decide, by decide, by decide⟩

/-- Witness for C9 at concrete inputs. -/
theorem unparsable_prices_pass_through_witness :
    parse_line_fields ["20240101093000123456", "1", "2", "", ""] =
      some ("20240101093000123456", 1, 2, "", "") ∧
    processRow ⟨none, some "5000", some "xyz"⟩ initCounters
        ["20240101093000323456", "1", "2", "4000", "7"] =
      (⟨some "4000", some "5000", some "xyz"⟩, ⟨1, 1, 1, 1, 0⟩,
       some ⟨"20240101", "093000", "3234560", "4000", "5000", "xyz", "7"⟩) :=
  ⟨unparsable_prices_pass_through.1 "20240101093000123456" "1" "2" "" "" 1 2
     (by decide) (by decide) (by decide) (by decide),
   unparsable_prices_pass_through.2.1 ⟨none, some "5000", some "xyz"⟩
     initCounters ["20240101093000323456", "1", "2", "4000", "7"]
     "20240101093000323456" "4000" "7" "5000" "xyz" (by decide) rfl rfl
     (Or.inr (Or.inr (by decide)))⟩
/-! ## Claim C4: the rollover calendar -/

/-- `second_friday y m` lands 7 to 13 days after the 1st of the month, on a
Friday, and is minimal among Fridays on or after the 1st plus seven. -/
theorem second_friday_window (y m : Nat) :
    toordinal ⟨y, m, 1⟩ + 7 ≤ second_friday y m ∧
    second_friday y m ≤ toordinal ⟨y, m, 1⟩ + 13 ∧
    pyWeekday (second_friday y m) = 4 ∧
    (∀ o, toordinal ⟨y, m, 1⟩ ≤ o → pyWeekday o = 4 →
      second_friday y m ≤ o + 7) := by
  simp only [second_friday, pyWeekday]
  refine ⟨by omega, by omega, by omega, fun o h1 h2 => by omega⟩

/-- Day gaps between the firsts of the four quarter months (identical in
leap and common years). -/
theorem toordinal_quarter_gaps (y : Nat) :
    toordinal ⟨y, 6, 1⟩ = toordinal ⟨y, 3, 1⟩ + 92 ∧
    toordinal ⟨y, 9, 1⟩ = toordinal ⟨y, 6, 1⟩ + 92 ∧
    toordinal ⟨y, 12, 1⟩ = toordinal ⟨y, 9, 1⟩ + 91 := by
  cases h : isLeap y <;>
    simp [toordinal, daysBeforeMonth, daysBeforeMonthTable, h]

/-- The four roll dates of a year are strictly increasing. -/
theorem second_friday_chain (y : Nat) :
    second_friday y 3 < second_friday y 6 ∧
    second_friday y 6 < second_friday y 9 ∧
    second_friday y 9 < second_friday y 12 := by
  obtain ⟨g1, g2, g3⟩ := toordinal_quarter_gaps y
  obtain ⟨a3, b3, -, -⟩ := second_friday_window y 3
  obtain ⟨a6, b6, -, -⟩ := second_friday_window y 6
  obtain ⟨a9, b9, -, -⟩ := second_friday_window y 9
  obtain ⟨a12, b12, -, -⟩ := second_friday_window y 12
  omega

/-- C4.  `front_contract_for_date` maps a date to March, June, September or
December of its year according to which roll (second Friday of the quarter
month) it precedes, and to March of the next year on or after the December
roll; a date exactly on a roll boundary gets the new contract, the day
before gets the old one; and the second Friday is the first Friday on or
after the 1st, plus seven days. -/
theorem front_contract_characterization (d : PyDate)
    (_hv : validDate d = true) :
    (toordinal d < second_friday d.year 3 →
      front_contract_for_date d = (3, d.year)) ∧
    (second_friday d.year 3 ≤ toordinal d →
      toordinal d < second_friday d.year 6 →
      front_contract_for_date d = (6, d.year)) ∧
    (second_friday d.year 6 ≤ toordinal d →
      toordinal d < second_friday d.year 9 →
      front_contract_for_date d = (9, d.year)) ∧
    (second_friday d.year 9 ≤ toordinal d →
      toordinal d < second_friday d.year 12 →
      front_contract_for_date d = (12, d.year)) ∧
    (second_friday d.year 12 ≤ toordinal d →
      front_contract_for_date d = (3, d.year + 1)) ∧
    (toordinal d = second_friday d.year 3 →
      front_contract_for_date d = (6, d.year)) ∧
    (toordinal d + 1 = second_friday d.year 3 →
      front_contract_for_date d = (3, d.year)) ∧
    (toordinal d = second_friday d.year 6 →
      front_contract_for_date d = (9, d.year)) ∧
    (toordinal d + 1 = second_friday d.year 6 →
      front_contract_for_date d = (6, d.year)) ∧
    (toordinal d = second_friday d.year 9 →
      front_contract_for_date d = (12, d.year)) ∧
    (toordinal d + 1 = second_friday d.year 9 →
      front_contract_for_date d = (9, d.year)) ∧
    (toordinal d = second_friday d.year 12 →
      front_contract_for_date d = (3, d.year + 1)) ∧
    (toordinal d + 1 = second_friday d.year 12 →
      front_contract_for_date d = (12, d.year)) ∧
    (∀ m, toordinal ⟨d.year, m, 1⟩ ≤ second_friday d.year m - 7 ∧
      second_friday d.year m - 7 ≤ toordinal ⟨d.year, m, 1⟩ + 6 ∧
      pyWeekday (second_friday d.year m - 7) = 4 ∧
      second_friday d.year m = (second_friday d.year m - 7) + 7 ∧
      (∀ o, toordinal ⟨d.year, m, 1⟩ ≤ o → pyWeekday o = 4 →
        second_friday d.year m - 7 ≤ o)) := by
  obtain ⟨c1, c2, c3⟩ := second_friday_chain d.year
  refine ⟨fun h => ?_, fun h h6 => ?_, fun h h9 => ?_, fun h h12 => ?_,
    fun h => ?_, fun h => ?_, fun h => ?_, fun h => ?_, fun h => ?_,
    fun h => ?_, fun h => ?_, fun h => ?_, fun h => ?_, fun m => ?_⟩
  · simp only [front_contract_for_date]
    rw [if_pos h]
  · simp only [front_contract_for_date]
    rw [if_neg (by omega), if_pos h6]
  · simp only [front_contract_for_date]
    rw [if_neg (by omega), if_neg (by omega), if_pos h9]
  · simp only [front_contract_for_date]
    rw [if_neg (by omega), if_neg (by omega), if_neg (by omega), if_pos h12]
  · simp only [front_contract_for_date]
    rw [if_neg (by omega), if_neg (by omega), if_neg (by omega),
      if_neg (by omega)]
  · simp only [front_contract_for_date]
    rw [if_neg (by omega), if_pos (by omega)]
  · simp only [front_contract_for_date]
    rw [if_pos (by omega)]
  · simp only [front_contract_for_date]
    rw [if_neg (by omega), if_neg (by omega), if_pos (by omega)]
  · simp only [front_contract_for_date]
    rw [if_neg (by omega), if_pos (by omega)]
  · simp only [front_contract_for_date]
    rw [if_neg (by omega), if_neg (by omega), if_neg (by omega),
      if_pos (by omega)]
  · simp only [front_contract_for_date]
    rw [if_neg (by omega), if_neg (by omega), if_pos (by omega)]
  · simp only [front_contract_for_date]
    rw [if_neg (by omega), if_neg (by omega), if_neg (by omega),
      if_neg (by omega)]
  · simp only [front_contract_for_date]
    rw [if_neg (by omega), if_neg (by omega), if_neg (by omega),
      if_pos (by omega)]
  · obtain ⟨w1, w2, w3, w4⟩ := second_friday_window d.year m
    refine ⟨by omega, by omega, ?_, by omega, fun o ho hf => ?_⟩
    · simp only [pyWeekday] at w3 ⊢
      omega
    · have := w4 o ho hf
      omega

/-- Witness for C4 at 2024-01-01, which precedes the 2024 March roll. -/
theorem front_contract_characterization_witness :
    front_contract_for_date ⟨2024, 1, 1⟩ = (3, 2024) :=
  (front_contract_characterization ⟨2024, 1, 1⟩ (by decide)).1 (by decide)
/-! ## Claim C6: symbol inference -/

/-- Spec-side reading of the folder pattern: an alphanumeric symbol, a tier
marker `_T1_` or `_T2_`, and six digits. -/
def FolderPat (s sym : String) : Prop :=
  ∃ t ds : String, s = sym ++ "_T" ++ t ++ "_" ++ ds ∧ sym ≠ "" ∧
    sym.toList.all isAlnumAscii = true ∧ (t = "1" ∨ t = "2") ∧
    ds.length = 6 ∧ ds.toList.all Char.isDigit = true

theorem string_eq_of_data (a b : String) (h : a.data = b.data) : a = b := by
  cases a; cases b; cases h; rfl

theorem string_append_data (a b : String) :
    (a ++ b).data = a.data ++ b.data := rfl

theorem takeWhile_of_append (p : Char → Bool) (xs : List Char) (y : Char)
    (ys : List Char) (hxs : ∀ x ∈ xs, p x = true) (hy : p y = false) :
    (xs ++ y :: ys).takeWhile p = xs ∧ (xs ++ y :: ys).dropWhile p = y :: ys := by
  induction xs with
  | nil => simp [List.takeWhile, List.dropWhile, hy]
  | cons x xs ih =>
    have hx := hxs x (by simp)
    have hih := ih (fun z hz => hxs z (by simp [hz]))
    simp [List.takeWhile, List.dropWhile, hx, hih.1, hih.2]

theorem takeWhile_sat (p : Char → Bool) (l : List Char) :
    ∀ x ∈ l.takeWhile p, p x = true := by
  induction l with
  | nil => simp [List.takeWhile]
  | cons c cs ih =>
    intro x hx
    by_cases hc : p c = true
    · rw [List.takeWhile] at hx
      rw [hc] at hx
      rcases List.mem_cons.mp hx with rfl | hx2
      · exact hc
      · exact ih x hx2
    · rw [List.takeWhile] at hx
      rw [Bool.of_not_eq_true hc] at hx
      cases hx

/-- The regex `^([A-Za-z0-9]+)_T[12]_\d{6}$` matches exactly the strings of
the spec's folder shape, capturing the symbol. -/
theorem matchFolder_some_iff (s sym : String) :
    matchFolder s = some sym ↔ FolderPat s sym := by
  constructor
  · intro h
    simp only [matchFolder] at h
    split at h
    next hne =>
      split at h
      next t ds heq =>
        split at h
        next hcond =>
          injection h with hsym
          obtain ⟨ht, hlen, hdig⟩ := hcond
          subst hsym
          have hsplit := List.takeWhile_append_dropWhile
            (p := isAlnumAscii) (l := s.toList)
          refine ⟨String.mk [t], String.mk ds, ?_, ?_, ?_, ?_, ?_, ?_⟩
          · apply string_eq_of_data
            show s.toList =
              (((s.toList.takeWhile isAlnumAscii ++ ['_', 'T']) ++ [t]) ++
                ['_']) ++ ds
            rw [List.append_assoc, List.append_assoc, List.append_assoc]
            rw [← hsplit, heq]
            simp only [List.cons_append, List.nil_append]
            rw [(takeWhile_of_append isAlnumAscii
              (s.toList.takeWhile isAlnumAscii) '_' ('T' :: t :: '_' :: ds)
              (takeWhile_sat isAlnumAscii s.toList) (by decide)).1]
          · intro he
            apply hne
            have hde := congrArg String.data he
            simp only [] at hde
            exact hde
          · simp
          · rcases ht with h1 | h2
            · subst h1; exact Or.inl rfl
            · subst h2; exact Or.inr rfl
          · exact hlen
          · exact hdig
        next => exact absurd h (by simp)
      next => exact absurd h (by simp)
    next => exact absurd h (by simp)
  · rintro ⟨t, ds, hs, hne, hall, ht, hlen, hdig⟩
    have hsymall : ∀ x ∈ sym.toList, isAlnumAscii x = true := by
      simpa using hall
    have hsymne : sym.toList ≠ [] := by
      intro hc
      exact hne (string_eq_of_data sym "" hc)
    rcases ht with rfl | rfl
    · have hdata : s.toList = sym.toList ++ '_' :: 'T' :: '1' :: '_' :: ds.toList := by
        rw [hs]
        show ((((sym ++ "_T") ++ "1") ++ "_") ++ ds).data = _
        rw [string_append_data, string_append_data, string_append_data,
          string_append_data]
        rw [show ("_T" : String).data = ['_', 'T'] from rfl,
          show ("1" : String).data = ['1'] from rfl,
          show ("_" : String).data = ['_'] from rfl]
        simp
      have hsplit := takeWhile_of_append isAlnumAscii sym.toList '_'
        ('T' :: '1' :: '_' :: ds.toList) hsymall (by decide)
      simp only [matchFolder]
      rw [hdata, hsplit.1, hsplit.2, if_pos hsymne]
      change (if (('1' = '1' ∨ '1' = '2') ∧ ds.toList.length = 6 ∧
          ds.toList.all Char.isDigit = true) then
          some (String.mk sym.toList) else none) = some sym
      rw [if_pos ⟨Or.inl rfl, hlen, hdig⟩]
      exact congrArg some (string_eq_of_data _ _ rfl)
    · have hdata : s.toList = sym.toList ++ '_' :: 'T' :: '2' :: '_' :: ds.toList := by
        rw [hs]
        show ((((sym ++ "_T") ++ "2") ++ "_") ++ ds).data = _
        rw [string_append_data, string_append_data, string_append_data,
          string_append_data]
        rw [show ("_T" : String).data = ['_', 'T'] from rfl,
          show ("2" : String).data = ['2'] from rfl,
          show ("_" : String).data = ['_'] from rfl]
        simp
      have hsplit := takeWhile_of_append isAlnumAscii sym.toList '_'
        ('T' :: '2' :: '_' :: ds.toList) hsymall (by decide)
      simp only [matchFolder]
      rw [hdata, hsplit.1, hsplit.2, if_pos hsymne]
      change (if (('2' = '1' ∨ '2' = '2') ∧ ds.toList.length = 6 ∧
          ds.toList.all Char.isDigit = true) then
          some (String.mk sym.toList) else none) = some sym
      rw [if_pos ⟨Or.inr rfl, hlen, hdig⟩]
      exact congrArg some (string_eq_of_data _ _ rfl)

/-- Counterexample to C6 as stated: an empty-string override is a supplied
override, yet inference ignores it (Python truthiness) and returns the
folder-derived symbol instead. -/
theorem empty_override_not_returned :
    infer_symbol_from_path "ES_T2_202408" "x" (some "") = some "ES" ∧
      infer_symbol_from_path "ES_T2_202408" "x" (some "") ≠ some "" := by
  constructor
  · decide
  · decide

/-- C6 (amended).  A non-empty override is returned unconditionally; with no
override or an empty-string override, the symbol is captured from the first
of (parent, grandparent) directory name matching the folder pattern, and
the error (`none`) is produced exactly when neither matches. -/
theorem infer_symbol_characterization (parent grand : String)
    (forced : Option String) :
    (∀ s, forced = some s → s ≠ "" →
      infer_symbol_from_path parent grand forced = some s) ∧
    (pyTruthy forced = false →
      (∀ sym, FolderPat parent sym →
        infer_symbol_from_path parent grand forced = some sym) ∧
      ((∀ sym, ¬ FolderPat parent sym) →
        ∀ sym, FolderPat grand sym →
          infer_symbol_from_path parent grand forced = some sym) ∧
      ((∀ sym, ¬ FolderPat parent sym) → (∀ sym, ¬ FolderPat grand sym) →
        infer_symbol_from_path parent grand forced = none)) := by
  constructor
  · rintro s rfl hs
    have hie : s.isEmpty = false := by
      rcases hI : s.isEmpty with _ | _
      · rfl
      · exact absurd ((String.isEmpty_iff s).mp hI) hs
    simp [infer_symbol_from_path, pyTruthy, hie]
  · intro hf
    have hnone : ∀ t : String, matchFolder t = none ↔ ∀ sym, ¬ FolderPat t sym := by
      intro t
      constructor
      · intro h0 sym hpat
        rw [(matchFolder_some_iff t sym).mpr hpat] at h0
        cases h0
      · intro hall
        rcases hm : matchFolder t with _ | sym
        · rfl
        · exact absurd ((matchFolder_some_iff t sym).mp hm) (hall sym)
    refine ⟨fun sym hpat => ?_, fun hnp sym hpat => ?_, fun hnp hng => ?_⟩
    · simp [infer_symbol_from_path, hf, (matchFolder_some_iff parent sym).mpr hpat]
    · simp [infer_symbol_from_path, hf, (hnone parent).mpr hnp,
        (matchFolder_some_iff grand sym).mpr hpat]
    · simp [infer_symbol_from_path, hf, (hnone parent).mpr hnp,
        (hnone grand).mpr hng]

/-- Witness for the amended C6 at concrete inputs. -/
theorem infer_symbol_characterization_witness :
    infer_symbol_from_path "x" "y" (some "NQ") = some "NQ" ∧
      infer_symbol_from_path "ES_T2_202401" "root" none = some "ES" :=
  ⟨(infer_symbol_characterization "x" "y" (some "NQ")).1 "NQ" rfl (by decide),
   ((infer_symbol_characterization "ES_T2_202401" "root" none).2 rfl).1 "ES"
     ⟨"2", "202401", by decide, by decide, by decide, Or.inr rfl, by decide,
      by decide⟩⟩
/-! ## Claim C2: the concrete single-file scenario -/

/-- The concrete day-file of the spec's scenario: folder `ES_T2_202401`,
file `20240101.csv`, a bid at 5000.00, an ask at 5000.25 and a trade at
5000.50. -/
def esScenarioFile : FileInput :=
  ⟨"ES_T2_202401", "root", "20240101.csv",
   ["20240101093000123456;1;0;5000.00;10",
    "20240101093000223456;1;1;5000.25;7",
    "20240101093000323456;1;2;5000.50;3"]⟩

/-- Counterexample to C2 as stated: the trade price 5000.50 exceeds the
stored ask 5000.25, so the ask is clamped: the emitted text is
`...;5000.50;5000.00;5000.50;3`, the clamp-ask flag is set and the clamp
counter is 1 — not the unclamped record with zero clamps the claim
asserts. -/
theorem concrete_scenario_claim_false :
    clamp_bbo_with_last "5000.50" "5000.00" "5000.25" ≠
      ("5000.00", "5000.25", false, false) ∧
    (export_file none esScenarioFile initWriters).toOption ≠
      some (⟨[(⟨"ES", 3, 2024⟩,
              "20240101 093000 3234560;5000.50;5000.00;5000.25;3\n")],
            [(⟨"ES", 3, 2024⟩,
              ⟨some "5000.50", some "5000.00", some "5000.25"⟩)]⟩,
           ⟨3, 3, 3, 1, 0⟩) := by
  constructor
  · decide
  · decide

/-- C2 (amended).  The scenario emits exactly one record to the resource
named `ES 03-24.Last.txt`; because the trade is above the stored ask, the
emitted text is `20240101 093000 3234560;5000.50;5000.00;5000.50;3` plus a
newline, with the clamp-ask flag set and the clamp counter equal to 1. -/
theorem concrete_scenario_run :
    (export_file none esScenarioFile initWriters).toOption =
      some (⟨[(⟨"ES", 3, 2024⟩,
              "20240101 093000 3234560;5000.50;5000.00;5000.50;3\n")],
            [(⟨"ES", 3, 2024⟩,
              ⟨some "5000.50", some "5000.00", some "5000.25"⟩)]⟩,
           ⟨3, 3, 3, 1, 1⟩) ∧
    (⟨"ES", 3, 2024⟩ : ContractKey).outfileName = "ES 03-24.Last.txt" ∧
    clamp_bbo_with_last "5000.50" "5000.00" "5000.25" =
      ("5000.00", "5000.50", false, true) := by
  refine ⟨by decide, by decide, by decide⟩
/-! ## Claim C7: per-file failure isolation and releaseAll -/

/-- A file the per-file export step fails on: symbol inference or
date-from-filename inference raises (I/O failures are outside the model). -/
def fileFails (forced : Option String) (fi : FileInput) : Bool :=
  (infer_symbol_from_path fi.parentName fi.grandName forced).isNone ||
    (infer_trade_date_from_filename fi.fileName).isNone

/-- A failing file adds one warning and changes nothing else. -/
theorem driverStep_fail (forced : Option String) (fi : FileInput)
    (h : fileFails forced fi = true) (acc : DriverAcc) :
    driverStep forced acc fi = ⟨acc.ws, acc.warnings + 1, acc.totals⟩ := by
  rcases hs : infer_symbol_from_path fi.parentName fi.grandName forced
    with _ | sym
  · simp [driverStep, export_file, hs]
  · rcases hd : infer_trade_date_from_filename fi.fileName with _ | d
    · simp [driverStep, export_file, hs, hd]
    · exfalso
      simp [fileFails, hs, hd] at h

/-- The warning counter threads additively through the driver loop. -/
theorem runBody_warn_shift (forced : Option String) (files : List FileInput)
    (ws : WritersState) (w : Nat) (t : Counters) :
    files.foldl (driverStep forced) ⟨ws, w + 1, t⟩ =
      { files.foldl (driverStep forced) ⟨ws, w, t⟩ with
        warnings := (files.foldl (driverStep forced) ⟨ws, w, t⟩).warnings + 1 } := by
  induction files generalizing ws w t with
  | nil => rfl
  | cons fi files ih =>
    simp only [List.foldl_cons]
    rcases he : export_file forced fi ws with e | r
    · simp only [driverStep, he]
      exact ih ws (w + 1) t
    · simp only [driverStep, he]
      exact ih r.1 w (addCounters t r.2)

/-- Keys are preserved by content updates of the handle map. -/
theorem map_fst_update (l : List (ContractKey × String)) (ck : ContractKey)
    (txt : String) :
    (l.map (fun p => if p.1 = ck then (p.1, p.2 ++ txt) else p)).map
      Prod.fst = l.map Prod.fst := by
  induction l with
  | nil => rfl
  | cons p l ih => by_cases h : p.1 = ck <;> simp [h, ih]

theorem appendOut_keys (w : WritersState) (ck : ContractKey) (txt : String) :
    (appendOut w ck txt).handles.map Prod.fst = w.handles.map Prod.fst :=
  map_fst_update w.handles ck txt

theorem setState_handles (w : WritersState) (ck : ContractKey)
    (st : BboState) : (setState w ck st).handles = w.handles := rfl

theorem getState_fst_handles (w : WritersState) (ck : ContractKey) :
    (getState w ck).1.handles = w.handles := by
  unfold getState
  rcases h : assocFind w.state ck with _ | v <;> simp

theorem getWriter_keys (w : WritersState) (ck : ContractKey) :
    (getWriter w ck).handles.map Prod.fst = w.handles.map Prod.fst ∨
      (getWriter w ck).handles.map Prod.fst =
        w.handles.map Prod.fst ++ [ck] := by
  unfold getWriter
  rcases h : assocFind w.handles ck with _ | v
  · right
    simp
  · left
    rfl

/-- A successful per-file export never closes a handle: every key open
before is still open after. -/
theorem export_file_keys (forced : Option String) (fi : FileInput)
    (ws ws2 : WritersState) (cnt : Counters)
    (h : export_file forced fi ws = .ok (ws2, cnt)) (k : ContractKey)
    (hk : k ∈ ws.handles.map Prod.fst) : k ∈ ws2.handles.map Prod.fst := by
  rcases hs : infer_symbol_from_path fi.parentName fi.grandName forced
    with _ | sym
  · simp [export_file, hs] at h
  · rcases hd : infer_trade_date_from_filename fi.fileName with _ | day
    · simp [export_file, hs, hd] at h
    · simp only [export_file, hs, hd] at h
      injection h with h
      injection h with h1 h2
      subst h1
      rw [appendOut_keys, setState_handles, getState_fst_handles]
      rcases getWriter_keys ws
        ⟨sym, (front_contract_for_date day).1,
         (front_contract_for_date day).2⟩ with hc | hc
      · rw [hc]
        exact hk
      · rw [hc]
        exact List.mem_append_left _ hk

/-- One driver step never closes a handle. -/
theorem driverStep_keys (forced : Option String) (acc : DriverAcc)
    (fi : FileInput) (k : ContractKey)
    (hk : k ∈ acc.ws.handles.map Prod.fst) :
    k ∈ (driverStep forced acc fi).ws.handles.map Prod.fst := by
  rcases he : export_file forced fi acc.ws with e | r
  · simpa [driverStep, he] using hk
  · simp only [driverStep, he]
    exact export_file_keys forced fi acc.ws r.1 r.2 (by rw [he]) k hk

/-- The driver loop never closes a handle. -/
theorem foldl_driver_keys (forced : Option String) (more : List FileInput)
    (acc : DriverAcc) (k : ContractKey)
    (hk : k ∈ acc.ws.handles.map Prod.fst) :
    k ∈ (more.foldl (driverStep forced) acc).ws.handles.map Prod.fst := by
  induction more generalizing acc with
  | nil => exact hk
  | cons fi more ih => exact ih _ (driverStep_keys forced acc fi k hk)

/-- C7.  The driver handles every file: a file that fails (symbol or
filename inference) adds exactly one warning and leaves the writers state
and totals exactly as if the file were absent, and the run continues; at
the end `releaseAll` runs unconditionally, flushing and closing every
handle ever opened (the final state is cleared, and any handle open after
any prefix of the run is among the closed ones). -/
theorem driver_isolation_and_release (forced : Option String) :
    (∀ files, (runDriver forced files).2.1 = initWriters ∧
      (runDriver forced files).2.2 =
        (runBody forced files).ws.handles.map Prod.fst) ∧
    (∀ files more k,
      k ∈ (runBody forced files).ws.handles.map Prod.fst →
      k ∈ (runDriver forced (files ++ more)).2.2) ∧
    (∀ xs f ys, fileFails forced f = true →
      runBody forced (xs ++ f :: ys) =
        ⟨(runBody forced (xs ++ ys)).ws,
         (runBody forced (xs ++ ys)).warnings + 1,
         (runBody forced (xs ++ ys)).totals⟩) := by
  refine ⟨fun files => ⟨rfl, rfl⟩, fun files more k hk => ?_,
    fun xs f ys h => ?_⟩
  · show k ∈ (runBody forced (files ++ more)).ws.handles.map Prod.fst
    unfold runBody at hk ⊢
    rw [List.foldl_append]
    exact foldl_driver_keys forced more _ k hk
  · unfold runBody
    rw [List.foldl_append, List.foldl_cons, List.foldl_append]
    rw [driverStep_fail forced f h]
    exact runBody_warn_shift forced ys _ _ _

/-- Witness for C7: a bad file name between two good files adds a warning
and leaves everything else as if it were absent. -/
theorem driver_isolation_and_release_witness :
    runBody none [⟨"ES_T2_202401", "root", "2024-01-01.csv", []⟩,
      ⟨"ES_T2_202401", "root", "20240101.csv", []⟩] =
      ⟨(runBody none [⟨"ES_T2_202401", "root", "20240101.csv", []⟩]).ws,
       (runBody none [⟨"ES_T2_202401", "root", "20240101.csv", []⟩]).warnings + 1,
       (runBody none [⟨"ES_T2_202401", "root", "20240101.csv", []⟩]).totals⟩ :=
  (driver_isolation_and_release none).2.2 []
    ⟨"ES_T2_202401", "root", "2024-01-01.csv", []⟩
    [⟨"ES_T2_202401", "root", "20240101.csv", []⟩] (by decide)
